import Mathlib

/-!
Verification development for the `commit` helper tool (github.com/hasansino/commit).

Go strings are modelled as `List Char` at rune granularity; all the strings
handled by the verified code paths (paths, patterns, tags, branch names,
commit messages) are treated character by character exactly as the Go code
treats them byte by byte, which coincides on ASCII data.  External processes
(git, gpg, the AI providers, the terminal UI) are modelled as explicit
function-valued parameters or environment records; the control flow around
them is translated statement by statement from the Go sources.
-/

set_option maxRecDepth 4000

namespace Commit

/-- Go strings modelled as rune lists. -/
abbrev Str := List Char

/-- Embeds a Lean string literal as a `Str`. -/
def str (s : String) : Str := s.data

/-! ## Go standard-library string primitives -/

/-- Model of Go `strings.HasPrefix`. -/
def goHasPrefix (s pre : Str) : Bool := pre.isPrefixOf s

/-- Model of Go `strings.HasSuffix`. -/
def goHasSuffix (s suf : Str) : Bool := suf.isSuffixOf s

/-- Model of Go `strings.Contains`: `sub` occurs as a contiguous substring of `s`. -/
def goContains (s sub : Str) : Bool :=
  if sub.isPrefixOf s then true
  else
    match s with
    | [] => false
    | _ :: t => goContains t sub

/-- Model of Go `strings.Index`: position of the first occurrence of `sub`
in `s`, `none` standing for Go's `-1`. -/
def goIndex (s sub : Str) : Option Nat :=
  if sub.isPrefixOf s then some 0
  else
    match s with
    | [] => none
    | _ :: t => (goIndex t sub).map (· + 1)

/-- Model of Go `strings.TrimPrefix`. -/
def goTrimPrefix (s pre : Str) : Str :=
  if goHasPrefix s pre then s.drop pre.length else s

/-- Model of Go `strings.TrimSuffix`. -/
def goTrimSuffix (s suf : Str) : Str :=
  if goHasSuffix s suf then s.take (s.length - suf.length) else s

/-- Go `unicode.IsSpace` on the White_Space code points. -/
def goIsSpace (c : Char) : Bool :=
  c = ' ' || c = '\t' || c = '\n' || c = '\x0b' || c = '\x0c' || c = '\r' ||
  c.toNat = 0x85 || c.toNat = 0xA0 || c.toNat = 0x1680 ||
  (0x2000 ≤ c.toNat && c.toNat ≤ 0x200A) ||
  c.toNat = 0x2028 || c.toNat = 0x2029 || c.toNat = 0x202F ||
  c.toNat = 0x205F || c.toNat = 0x3000

/-- Model of Go `strings.TrimSpace`. -/
def goTrimSpace (s : Str) : Str :=
  ((s.dropWhile goIsSpace).reverse.dropWhile goIsSpace).reverse

/-- Model of Go `strings.Trim(s, cutset)` for a one-character cutset. -/
def goTrimChar (s : Str) (c : Char) : Str :=
  ((s.dropWhile (· = c)).reverse.dropWhile (· = c)).reverse

/-- Model of Go `strings.Split(s, sep)` for a one-character separator. -/
def goSplitChar (sep : Char) : Str → List Str
  | [] => [[]]
  | c :: t =>
    if c = sep then [] :: goSplitChar sep t
    else
      match goSplitChar sep t with
      | [] => [[c]]
      | h :: r => (c :: h) :: r

/-- Model of Go `strings.ToLower`.  The Unicode simple lowercase mapping is
applied for every code point whose lowercase form is ASCII: the letters
`A`-`Z`, U+0130 (LATIN CAPITAL LETTER I WITH DOT ABOVE, lowercase `i`) and
U+212A (KELVIN SIGN, lowercase `k`) — the only code points Unicode lowers
into the ASCII range.  All other characters are kept unchanged, which cannot
affect a comparison of the result against an ASCII keyword, the only use
the program makes of this function. -/
def goToLower (s : Str) : Str :=
  s.map fun c =>
    if 'A' ≤ c && c ≤ 'Z' then Char.ofNat (c.toNat + 32)
    else if c.toNat = 0x130 then 'i'
    else if c.toNat = 0x212A then 'k'
    else c

/-- ASCII decimal digit test, Go `'0' <= c && c <= '9'`. -/
def isDigitGo (c : Char) : Bool := '0' ≤ c && c ≤ '9'

/-- ASCII uppercase test, the regexp class `[A-Z]`. -/
def isUpperGo (c : Char) : Bool := 'A' ≤ c && c ≤ 'Z'

/-- ASCII lowercase test, the regexp class `[a-z]`. -/
def isLowerGo (c : Char) : Bool := 'a' ≤ c && c ≤ 'z'

/-- Numeric value of a digit run (most significant first). -/
def digitsVal (s : Str) : Nat :=
  s.foldl (fun acc c => acc * 10 + (c.toNat - '0'.toNat)) 0

/-- Model of Go `strconv.Atoi`, whose error the callers in `parseSemVer`
discard: syntax errors yield 0, out-of-range values are clamped to the
64-bit integer limits (as `strconv.ParseInt` does before `Atoi` returns). -/
def goAtoi (s : Str) : Int :=
  match s with
  | [] => 0
  | _ =>
    let (neg, digits) :=
      match s with
      | '+' :: t => (false, t)
      | '-' :: t => (true, t)
      | t => (false, t)
    if digits.isEmpty || !digits.all isDigitGo then 0
    else
      let v : Int := if neg then -(digitsVal digits : Int) else (digitsVal digits : Int)
      if v > (2 ^ 63 - 1 : Int) then (2 ^ 63 - 1 : Int)
      else if v < -(2 ^ 63 : Int) then -(2 ^ 63 : Int)
      else v

/-- Decimal rendering of an integer, Go `fmt.Sprintf("%d", _)`. -/
def intToStr (n : Int) : Str :=
  if n < 0 then '-' :: (Int.natAbs n).repr.data else (Int.natAbs n).repr.data

/-! ## Semantic versions (`src/unnamed/part_006`, `semVer`, `parseSemVer`,
`IncrementVersion`) -/

/-- The `semVer` struct. -/
structure SemVer where
  major : Int
  minor : Int
  patch : Int
deriving DecidableEq, Repr

/-- Model of `parseSemVer`: trim a leading `v`, split on dots, require
exactly three components, convert each with `strconv.Atoi` ignoring errors. -/
def parseSemVer (version : Str) : SemVer :=
  let version := goTrimPrefix version (str "v")
  let parts := goSplitChar '.' version
  if parts.length ≠ 3 then ⟨0, 0, 0⟩
  else ⟨goAtoi (parts.getD 0 []), goAtoi (parts.getD 1 []), goAtoi (parts.getD 2 [])⟩

/-- Rendering `fmt.Sprintf("v%d.%d.%d", ...)`. -/
def formatSemVer (v : SemVer) : Str :=
  'v' :: intToStr v.major ++ '.' :: intToStr v.minor ++ '.' :: intToStr v.patch

/-- Two's-complement wraparound of Go's 64-bit `int` arithmetic, applied to
the `++` increments of `IncrementVersion` (Go defines signed overflow to
wrap). -/
def wrap64 (n : Int) : Int := (n + 2 ^ 63) % 2 ^ 64 - 2 ^ 63

/-- Model of `IncrementVersion`: empty tag starts from `v0.0.0`, otherwise the
tag is parsed leniently; the increment kind is matched case-insensitively and
anything other than major/minor/patch is an error.  The `++` increments are
64-bit and wrap at the integer limit. -/
def IncrementVersion (currentTag incrementType : Str) : Except Unit Str :=
  let version : SemVer := if currentTag = [] then ⟨0, 0, 0⟩ else parseSemVer currentTag
  if goToLower incrementType = str "major" then
    .ok (formatSemVer ⟨wrap64 (version.major + 1), 0, 0⟩)
  else if goToLower incrementType = str "minor" then
    .ok (formatSemVer ⟨version.major, wrap64 (version.minor + 1), 0⟩)
  else if goToLower incrementType = str "patch" then
    .ok (formatSemVer ⟨version.major, version.minor, wrap64 (version.patch + 1)⟩)
  else .error ()

/-- The base version `IncrementVersion` starts from: the `version` local
variable of the Go function. -/
def baseVersion (currentTag : Str) : SemVer :=
  if currentTag = [] then ⟨0, 0, 0⟩ else parseSemVer currentTag

/-! ## Repository states (`src/pkg/commit/git_states.go`) -/

/-- The Go repository-state string constants. -/
def RepoStateNormal : Str := str "normal"

/-- State string for an in-progress merge. -/
def RepoStateMerging : Str := str "merging"

/-- State string for an in-progress rebase. -/
def RepoStateRebasing : Str := str "rebasing"

/-- State string for an in-progress cherry-pick. -/
def RepoStateCherryPicking : Str := str "cherry-picking"

/-- State string for an in-progress revert. -/
def RepoStateReverting : Str := str "reverting"

/-- State string for an in-progress bisect. -/
def RepoStateBisecting : Str := str "bisecting"

/-- Presence of each marker file or directory under the resolved git metadata
directory (after the `.git`-file worktree indirection of `GetRepoState` has
been followed); each field is the result of the corresponding `fileExists`
probe. -/
structure RepoMarkers where
  rebaseMerge : Bool
  rebaseApply : Bool
  mergeHead : Bool
  cherryPickHead : Bool
  revertHead : Bool
  bisectLog : Bool
deriving DecidableEq, Repr

/-- Model of `GetRepoState`, the chain of marker probes in source order. -/
def GetRepoState (m : RepoMarkers) : Str :=
  if m.rebaseMerge || m.rebaseApply then RepoStateRebasing
  else if m.mergeHead then RepoStateMerging
  else if m.cherryPickHead then RepoStateCherryPicking
  else if m.revertHead then RepoStateReverting
  else if m.bisectLog then RepoStateBisecting
  else RepoStateNormal

/-- The specification's precedence table: states paired with their marker
conditions, highest precedence first. -/
def repoStatePrecedence (m : RepoMarkers) : List (Str × Bool) :=
  [(RepoStateRebasing, m.rebaseMerge || m.rebaseApply),
   (RepoStateMerging, m.mergeHead),
   (RepoStateCherryPicking, m.cherryPickHead),
   (RepoStateReverting, m.revertHead),
   (RepoStateBisecting, m.bisectLog)]

/-- The state selected by scanning the precedence table for the first active
marker, `normal` when none is active. -/
def specRepoState (m : RepoMarkers) : Str :=
  (((repoStatePrecedence m).find? (·.2)).map (·.1)).getD RepoStateNormal

/-! ## Go `path/filepath.Match` (used by the pattern matcher)

The Go matcher is translated function by function (`scanChunk`, `matchChunk`,
`getEsc` and the `Match` main loop from `path/filepath/match.go`, with
`Separator = '/'`).  The loops are expressed as recursion on an explicit
fuel argument; every iteration of each Go loop consumes at least one
character of the chunk or pattern it scans, so a fuel of one more than that
length is always sufficient and the out-of-fuel branch is unreachable. -/

/-- Leading-star stripping from `scanChunk`. -/
def stripStars : Str → Str
  | '*' :: t => stripStars t
  | s => s

/-- Body scan of `scanChunk`: splits the pattern after the leading stars into
the next chunk and the remaining pattern, tracking the in-character-class
flag. -/
def scanBody (inrange : Bool) : Str → Str × Str
  | [] => ([], [])
  | '\\' :: c2 :: t =>
    let (ch, r) := scanBody inrange t
    ('\\' :: c2 :: ch, r)
  | ['\\'] => (['\\'], [])
  | '[' :: t =>
    let (ch, r) := scanBody true t
    ('[' :: ch, r)
  | ']' :: t =>
    let (ch, r) := scanBody false t
    (']' :: ch, r)
  | '*' :: t =>
    if inrange then
      let (ch, r) := scanBody true t
      ('*' :: ch, r)
    else ([], '*' :: t)
  | c :: t =>
    let (ch, r) := scanBody inrange t
    (c :: ch, r)

/-- Model of `scanChunk`: `(star, chunk, rest)`. -/
def scanChunk (pattern : Str) : Bool × Str × Str :=
  let star := pattern.head? = some '*'
  let (chunk, rest) := scanBody false (stripStars pattern)
  (star, chunk, rest)

/-- Model of `getEsc`: one possibly-escaped character of a character class,
`error` standing for `ErrBadPattern`. -/
def getEsc : Str → Except Unit (Char × Str)
  | [] => .error ()
  | c :: t =>
    if c = '-' || c = ']' then .error ()
    else if c = '\\' then
      match t with
      | [] => .error ()
      | r :: t2 => if t2.isEmpty then .error () else .ok (r, t2)
    else if t.isEmpty then .error () else .ok (c, t)

/-- The range-parsing loop of `matchChunk` for a `[...]` class: `r` is the
rune being matched (Go's zero rune when the chunk already failed), `macc` the
accumulated `match` flag, `nrange` the number of ranges parsed; returns the
flag and the chunk remainder after the closing bracket. -/
def parseClassRanges (fuel : Nat) (r : Char) (chunk : Str) (macc : Bool) (nrange : Nat) :
    Except Unit (Bool × Str) :=
  match fuel with
  | 0 => .error ()
  | fuel + 1 =>
    if chunk.head? = some ']' && decide (0 < nrange) then .ok (macc, chunk.tail)
    else
      match getEsc chunk with
      | .error _ => .error ()
      | .ok (lo, c1) =>
        if c1.head? = some '-' then
          match getEsc c1.tail with
          | .error _ => .error ()
          | .ok (hi, c2) =>
            parseClassRanges fuel r c2 (macc || (lo ≤ r && r ≤ hi)) (nrange + 1)
        else
          parseClassRanges fuel r c1 (macc || (lo ≤ r && r ≤ lo)) (nrange + 1)

/-- The main loop of `matchChunk`: tries to match `chunk` against the start
of `s`, threading Go's `failed` flag; `ok (some t)` is a match with remainder
`t`, `ok none` is a clean mismatch, `error` is `ErrBadPattern`. -/
def matchChunkFuel (fuel : Nat) (chunk s : Str) (failed0 : Bool) : Except Unit (Option Str) :=
  match fuel with
  | 0 => .error ()
  | fuel + 1 =>
    match chunk with
    | [] => if failed0 then .ok none else .ok (some s)
    | c :: ct =>
      let failed := failed0 || s.isEmpty
      if c = '[' then
        let (r, s1) :=
          if failed then (Char.ofNat 0, s)
          else
            match s with
            | [] => (Char.ofNat 0, ([] : Str))
            | a :: t => (a, t)
        let (negated, ct2) :=
          match ct with
          | '^' :: t => (true, t)
          | _ => (false, ct)
        match parseClassRanges (ct2.length + 1) r ct2 false 0 with
        | .error _ => .error ()
        | .ok (m, rest) => matchChunkFuel fuel rest s1 (failed || (m = negated))
      else if c = '?' then
        let (failed2, s1) :=
          if failed then (failed, s)
          else
            match s with
            | [] => (true, ([] : Str))
            | a :: t => (a = '/', t)
        matchChunkFuel fuel ct s1 failed2
      else if c = '\\' then
        match ct with
        | [] => .error ()
        | e :: ct2 =>
          let (failed2, s1) :=
            if failed then (failed, s)
            else
              match s with
              | [] => (true, ([] : Str))
              | a :: t => (e ≠ a, t)
          matchChunkFuel fuel ct2 s1 failed2
      else
        let (failed2, s1) :=
          if failed then (failed, s)
          else
            match s with
            | [] => (true, ([] : Str))
            | a :: t => (c ≠ a, t)
        matchChunkFuel fuel ct s1 failed2

/-- Entry point to the chunk matcher with a sufficient fuel budget. -/
def matchChunkRun (chunk s : Str) : Except Unit (Option Str) :=
  matchChunkFuel (chunk.length + 1) chunk s false

/-- The star loop of `Match`: starting from the current name suffix, skip one
non-separator character at a time and retry the chunk; `rest` is the pattern
remainder used for the last-chunk exhaustion check. -/
def starSkip (chunk rest : Str) : Str → Except Unit (Option Str)
  | [] => .ok none
  | a :: t =>
    if a = '/' then .ok none
    else
      match matchChunkRun chunk t with
      | .error _ => .error ()
      | .ok (some tr) =>
        if rest.isEmpty && !tr.isEmpty then starSkip chunk rest t
        else .ok (some tr)
      | .ok none => starSkip chunk rest t

/-- The `Pattern:` loop of `filepath.Match`. -/
def goMatchFuel (fuel : Nat) (pattern name : Str) : Except Unit Bool :=
  match fuel with
  | 0 => .error ()
  | fuel + 1 =>
    match pattern with
    | [] => .ok name.isEmpty
    | _ =>
      let (star, chunk, rest) := scanChunk pattern
      if star && chunk.isEmpty then .ok (!goContains name (str "/"))
      else
        match matchChunkRun chunk name with
        | .error _ => .error ()
        | .ok res =>
          let proceed : Option Str :=
            match res with
            | some t => if t.isEmpty || !rest.isEmpty then some t else none
            | none => none
          match proceed with
          | some t => goMatchFuel fuel rest t
          | none =>
            if star then
              match starSkip chunk rest name with
              | .error _ => .error ()
              | .ok (some t) => goMatchFuel fuel rest t
              | .ok none => .ok false
            else .ok false

/-- Model of `filepath.Match pattern name`. -/
def goMatch (pattern name : Str) : Except Unit Bool :=
  goMatchFuel (pattern.length + 1) pattern name

/-- The call shape `matched, _ := filepath.Match(pattern, x)` used throughout
the staging code: the `ErrBadPattern` error is discarded, leaving `false`. -/
def goMatchB (pattern name : Str) : Bool :=
  match goMatch pattern name with
  | .ok b => b
  | .error _ => false

/-! ## File filtering and staging (`src/unnamed/part_006`) -/

/-- Model of Go `filepath.Base` on unix: empty path gives `"."`, trailing
slashes are stripped, then everything up to the last slash is discarded; a
path of only slashes gives `"/"`. -/
def goBase (path : Str) : Str :=
  if path.isEmpty then str "."
  else
    let p := (path.reverse.dropWhile (· = '/')).reverse
    if p.isEmpty then str "/"
    else (p.reverse.takeWhile (· ≠ '/')).reverse

/-- One global gitignore pattern tested against a file inside
`shouldExcludeFile`: the directory-pattern probe for patterns ending in `/`,
then substring tests on the path and basename, then glob tests on both. -/
def globalPatternHit (file pattern : Str) : Bool :=
  (goHasSuffix pattern (str "/") &&
    goContains file (goTrimSuffix pattern (str "/") ++ str "/")) ||
  goContains file pattern || goContains (goBase file) pattern ||
  goMatchB pattern file || goMatchB pattern (goBase file)

/-- One local pattern tested against a file: substring on path, substring on
basename, glob on path, glob on basename — first success wins. -/
def localPatternHit (file pattern : Str) : Bool :=
  goContains file pattern || goContains (goBase file) pattern ||
  goMatchB pattern file || goMatchB pattern (goBase file)

/-- Model of `shouldExcludeFile`. -/
def shouldExcludeFile (file : Str) (excludePatterns globalPatterns : List Str) : Bool :=
  if globalPatterns.any (globalPatternHit file) then true
  else if excludePatterns.isEmpty then false
  else excludePatterns.any (localPatternHit file)

/-- Model of `shouldIncludeFile`. -/
def shouldIncludeFile (file : Str) (patterns : List Str) : Bool :=
  if patterns.isEmpty then false
  else patterns.any (localPatternHit file)

/-- The specification's single-pattern match relation: the pattern is a
substring of the full path, or a substring of the basename, or a glob match
of the full path, or a glob match of the basename. -/
def specPatternMatch (file pattern : Str) : Bool :=
  goContains file pattern || goContains (goBase file) pattern ||
  goMatchB pattern file || goMatchB pattern (goBase file)

/-- The staging predicate of `stageFiltered` for a single already-modified
file: not excluded, and included whenever include patterns are present. -/
def stageFilteredKeep (file : Str) (excludePatterns includePatterns globalPatterns : List Str) :
    Bool :=
  !shouldExcludeFile file excludePatterns globalPatterns &&
  !(!includePatterns.isEmpty && !shouldIncludeFile file includePatterns)

/-- The specification's staging condition: no global-ignore pattern matches,
no local exclude pattern matches, and the include list is empty or at least
one include pattern matches. -/
def specStageKeep (file : Str) (excludePatterns includePatterns globalPatterns : List Str) :
    Bool :=
  !globalPatterns.any (specPatternMatch file) &&
  !excludePatterns.any (specPatternMatch file) &&
  (includePatterns.isEmpty || includePatterns.any (specPatternMatch file))

/-- Model of `isSimpleGlobPattern`: no path separator, and at least one
wildcard. -/
def isSimpleGlobPattern (pattern : Str) : Bool :=
  !goContains pattern (str "/") &&
  (goContains pattern (str "*") || goContains pattern (str "?"))

/-- One entry of the go-git worktree status map: the path and its worktree
status code (`git.Unmodified` is the space character). -/
structure StatusEntry where
  file : Str
  worktree : Char
deriving DecidableEq, Repr

/-- The go-git `Unmodified` status code. -/
def unmodifiedCode : Char := ' '

/-- Files staged and returned by `stageAllModified`: every status entry whose
worktree status is not `Unmodified`. -/
def stageAllModifiedList (status : List StatusEntry) : List Str :=
  (status.filter (fun e => e.worktree ≠ unmodifiedCode)).map (·.file)

/-- Files resolved and returned by `stageWithGlob`: the modified status
entries whose full path matches the pattern under `filepath.Match` (the list
go-git is then asked to stage via `AddGlob`). -/
def stageWithGlobList (status : List StatusEntry) (pattern : Str) : List Str :=
  (status.filter (fun e => e.worktree ≠ unmodifiedCode && goMatchB pattern e.file)).map (·.file)

/-- Files staged individually and returned by `stageFiltered`. -/
def stageFilteredList (status : List StatusEntry)
    (excludePatterns includePatterns globalPatterns : List Str) : List Str :=
  (status.filter (fun e => e.worktree ≠ unmodifiedCode &&
    stageFilteredKeep e.file excludePatterns includePatterns globalPatterns)).map (·.file)

/-- The strategy dispatch of `StageFiles` (the `globalPatterns` argument
stands for the patterns loaded from the configured global gitignore file,
empty when `useGlobalGitignore` is off or the file has none). -/
def StageFilesList (status : List StatusEntry)
    (excludePatterns includePatterns globalPatterns : List Str) : List Str :=
  if excludePatterns.isEmpty && includePatterns.isEmpty && globalPatterns.isEmpty then
    stageAllModifiedList status
  else if excludePatterns.isEmpty && includePatterns.length = 1 && globalPatterns.isEmpty &&
      isSimpleGlobPattern (includePatterns.headD []) then
    stageWithGlobList status (includePatterns.headD [])
  else
    stageFilteredList status excludePatterns includePatterns globalPatterns

/-! ## Staged-diff fitting (`GetStagedDiff`) -/

/-- The context widths tried by the diff fitter, the Go `contextLevels`. -/
def contextLevels : List Nat := [5, 3, 2, 1, 0]

/-- The `for contextLevel in contextLevels` loop of `GetStagedDiff`:
`render l` abstracts the output of `git diff --cached ... -U<l> -- files`. -/
def tryContextLevels (render : Nat → Str) (maxSizeBytes : Nat) : List Nat → Option Str
  | [] => none
  | l :: rest =>
    let diff := render l
    if diff.length ≤ maxSizeBytes then some diff
    else tryContextLevels render maxSizeBytes rest

/-- Model of `GetStagedDiff`: empty file list short-circuits to an empty
diff; otherwise the first fitting context level wins, and as a last resort
the `-U0` rendering is truncated at the byte ceiling. -/
def GetStagedDiff (render : Nat → Str) (diffFiles : List Str) (maxSizeBytes : Nat) : Str :=
  if diffFiles.isEmpty then []
  else
    match tryContextLevels render maxSizeBytes contextLevels with
    | some diff => diff
    | none =>
      let diff := render 0
      if maxSizeBytes < diff.length then diff.take maxSizeBytes else diff

/-- The specification's fitting rule: render at widths 5, 3, 2, 1, 0 in that
order, return the first rendering within the ceiling, and otherwise the
0-context rendering truncated to the ceiling. -/
def specStagedDiff (render : Nat → Str) (maxSizeBytes : Nat) : Str :=
  match contextLevels.find? (fun l => (render l).length ≤ maxSizeBytes) with
  | some l => render l
  | none => (render 0).take maxSizeBytes

/-! ## Branch issue-ID module (`src/pkg/commit/modules/jira.go`)

The six entries of `jiraPatterns` are simple anchored regular expressions;
each is translated into an equivalent direct matcher.  Because `[A-Z]+` and
`\d+` are greedy and the character following each run is constrained to a
character outside the run's class, the backtracking search of Go's regexp
engine accepts exactly the maximal runs, which is what the matchers below
compute. -/

/-- Injection position, the Go `JiraTaskPosition` constants
`none` / `prefix` / `infix` / `suffix`. -/
inductive JiraTaskPosition where
  | posNone
  | posPrefix
  | posInfix
  | posSuffix
deriving DecidableEq, Repr

/-- Literal style, the Go `JiraTaskStyle` constants
`plain` / `plain_colon` / `brackets` / `parens`. -/
inductive JiraTaskStyle where
  | stylePlain
  | stylePlainColon
  | styleBrackets
  | styleParens
deriving DecidableEq, Repr

/-- Matches `([A-Z]+-\d+)` at the start of `s`: maximal uppercase run, a
dash, maximal digit run; returns the captured text and the remainder. -/
def matchIdAt (s : Str) : Option (Str × Str) :=
  let u := s.takeWhile isUpperGo
  if u.isEmpty then none
  else
    match s.dropWhile isUpperGo with
    | '-' :: r2 =>
      let d := r2.takeWhile isDigitGo
      if d.isEmpty then none
      else some (u ++ '-' :: d, r2.dropWhile isDigitGo)
    | _ => none

/-- Matches one of the anchored branch conventions
`^<pfx>([A-Z]+-\d+)(?:-.*)?$`: after the literal prefix the captured ID must
be followed by nothing, or by a dash and a newline-free remainder (`.` does
not match a newline in Go regexps). -/
def matchBranchConvention (pfx branchName : Str) : Option Str :=
  if goHasPrefix branchName pfx then
    match matchIdAt (branchName.drop pfx.length) with
    | some (id, rest) =>
      if rest.isEmpty then some id
      else if rest.headD ' ' = '-' && !rest.tail.any (· = '\n') then some id
      else none
    | none => none
  else none

/-- Matches `/([A-Z]+-\d+)(?:-|$)` at the leftmost possible position: a
slash, the captured ID, then a dash or the end of the branch name. -/
def findSlashId : Str → Option Str
  | [] => none
  | c :: t =>
    if c = '/' then
      match matchIdAt t with
      | some (id, rest) =>
        if rest.isEmpty || rest.headD ' ' = '-' then some id else findSlashId t
      | none => findSlashId t
    else findSlashId t

/-- Model of `detectJiraID`: the six `jiraPatterns` tried in order, first
capture returned, empty string when none matches. -/
def detectJiraID (branchName : Str) : Str :=
  match matchIdAt branchName with
  | some (id, _) => id
  | none =>
    match matchBranchConvention (str "feature/") branchName with
    | some id => id
    | none =>
      match matchBranchConvention (str "bugfix/") branchName with
      | some id => id
      | none =>
        match matchBranchConvention (str "hotfix/") branchName with
        | some id => id
        | none =>
          match matchBranchConvention (str "chore/") branchName with
          | some id => id
          | none =>
            match findSlashId branchName with
            | some id => id
            | none => []

/-- Character class `[a-zA-Z0-9\-_]` of the conventional-commit scope. -/
def isScopeChar (c : Char) : Bool :=
  isLowerGo c || isUpperGo c || isDigitGo c || c = '-' || c = '_'

/-- The regexp `^[a-z]+(\([a-zA-Z0-9\-_]+\))?!?$` of
`conventionalCommitPattern`. -/
def matchesConventionalPattern (s : Str) : Bool :=
  let t := s.takeWhile isLowerGo
  let r := s.dropWhile isLowerGo
  !t.isEmpty &&
  (r.isEmpty || r = ['!'] ||
    (match r with
     | '(' :: r1 =>
       let sc := r1.takeWhile isScopeChar
       !sc.isEmpty &&
       (match r1.dropWhile isScopeChar with
        | [')'] => true
        | [')', '!'] => true
        | _ => false)
     | _ => false))

/-- The `conventionalCommitTypes` table. -/
def conventionalCommitTypes : List Str :=
  [str "feat", str "fix", str "docs", str "style", str "refactor", str "perf",
   str "test", str "build", str "ci", str "chore", str "revert"]

/-- Model of `isConventionalCommitPrefix`: the pattern must match and the
type (the part before the scope, or before a trailing `!`) must be a known
conventional-commit type. -/
def isConventionalCommitPrefix (p : Str) : Bool :=
  if !matchesConventionalPattern p then false
  else
    let commitType :=
      match goIndex p (str "(") with
      | some i => p.take i
      | none => if goHasSuffix p (str "!") then p.take (p.length - 1) else p
    conventionalCommitTypes.contains commitType

/-- First line of a message, Go `strings.SplitN(msg, "\n", 2)[0]`. -/
def firstLineOf (s : Str) : Str := s.takeWhile (· ≠ '\n')

/-- Everything after the first newline of a message, when there is one:
`strings.SplitN(msg, "\n", 2)[1]`. -/
def restAfterNL (s : Str) : Option Str :=
  match s.dropWhile (· ≠ '\n') with
  | [] => none
  | _ :: t => some t

/-- The `formattedID` switch of `addJiraID`. -/
def formatJiraID (style : JiraTaskStyle) (position : JiraTaskPosition) (jiraID : Str) : Str :=
  match style with
  | .styleBrackets => '[' :: jiraID ++ [']']
  | .styleParens => '(' :: jiraID ++ [')']
  | .stylePlainColon =>
    if position = .posPrefix then jiraID ++ [':'] else jiraID
  | .stylePlain => jiraID

/-- The conventional-commit split of the first line inside `addJiraID`:
`strings.Index(firstLine, ": ")` must land strictly inside the first 50
characters and the part before it must be a conventional-commit prefix. -/
def splitConventional (firstLine : Str) : Str × Str :=
  match goIndex firstLine (str ": ") with
  | some idx =>
    if 0 < idx && idx < 50 then
      let potential := firstLine.take idx
      if isConventionalCommitPrefix potential then (potential, firstLine.drop (idx + 2))
      else ([], firstLine)
    else ([], firstLine)
  | none => ([], firstLine)

/-- Model of `addJiraID`: skip when the ID is empty or already occurs
anywhere in the message; otherwise rewrite only the first line according to
the position and style and rejoin the remainder unchanged. -/
def addJiraID (position : JiraTaskPosition) (style : JiraTaskStyle)
    (commitMessage jiraID : Str) : Str :=
  if jiraID.isEmpty then commitMessage
  else if goContains commitMessage jiraID then commitMessage
  else
    let firstLine := firstLineOf commitMessage
    let formattedID := formatJiraID style position jiraID
    let pm := splitConventional firstLine
    let newFirst : Str :=
      match position with
      | .posNone => firstLine
      | .posPrefix => formattedID ++ ' ' :: firstLine
      | .posInfix =>
        if !pm.1.isEmpty then pm.1 ++ str ": " ++ formattedID ++ ' ' :: pm.2
        else formattedID ++ ' ' :: firstLine
      | .posSuffix => firstLine ++ ' ' :: formattedID
    if position = .posNone then commitMessage
    else
      match restAfterNL commitMessage with
      | none => newFirst
      | some rest => newFirst ++ '\n' :: rest

/-- Model of `TransformCommitMessage` of the `JIRATaskDetector` (its error
component is always nil and is omitted): position `none` and undetected IDs
leave the message unchanged with `changed = false`; otherwise the result of
`addJiraID` is returned with `changed = true`. -/
def TransformCommitMessage (position : JiraTaskPosition) (style : JiraTaskStyle)
    (branch message : Str) : Str × Bool :=
  if position = .posNone then (message, false)
  else
    let jiraID := detectJiraID branch
    if jiraID.isEmpty then (message, false)
    else (addJiraID position style message jiraID, true)

/-! ## Orchestration workflow (`Service.Execute` and
`Service.processCommitMessages`, second file of `src/pkg/commit/git_gpg.go`)

The collaborators reached through `gitOps`, `aiService` and the interactive
UI are abstracted into an environment record of call results; the calls the
service makes to them are recorded in an event trace.  Only the calls the
error-handling design names as side effects are traced: the provider
fan-out and the four mutating git operations (commit, push, tag creation,
tag push).  Error payloads are elided to `Unit`. -/

/-- Outcome of the interactive selection UI: the user cancelled, or chose a
message together with final checkbox values (dry-run, push, and the tag
kind reconstructed from the three tag checkboxes). -/
inductive UiOutcome where
  | canceled
  | chosen (message : Str) (dryRun push : Bool) (tag : Str)
deriving Repr

/-- The settings fields `Execute` and `processCommitMessages` read. -/
structure Settings where
  auto : Bool
  dryRun : Bool
  push : Bool
  tag : Str
deriving Repr

/-- Results of the collaborator calls the workflow can make, in the order it
makes them. -/
structure Env where
  numProviders : Nat
  isGitRepository : Bool
  repoState : Except Unit Str
  hasConflicts : Except Unit Bool
  unstageAll : Except Unit Unit
  stageFiles : Except Unit (List Str)
  stagedDiff : Except Unit Str
  currentBranch : Except Unit Str
  generateMessages : Except Unit (List Str)
  uiOutcome : Except Unit UiOutcome
  createCommit : Str → Except Unit Unit
  pushToRemote : Except Unit Str
  latestTag : Except Unit Str
  createTag : Str → Str → Except Unit Unit
  pushTag : Str → Except Unit Unit

/-- A transform module: `TransformCommitMessage(ctx, branch, message)`
returning the rewritten message and the changed flag, or an error. -/
def Module : Type := Str → Str → Except Unit (Str × Bool)

/-- Side-effecting calls recorded by the model. -/
inductive Event where
  | providerCall
  | createCommit (message : Str)
  | push
  | createTag (tag message : Str)
  | pushTag (tag : Str)
  | dryRunReport (message : Str)
deriving DecidableEq, Repr

/-- The module loop of `processCommitMessages`: an erroring module is
skipped, a module reporting no work leaves the message, otherwise its output
replaces the working message. -/
def runModules (modules : List Module) (branch : Str) (message : Str) : Str :=
  modules.foldl
    (fun cur m =>
      match m branch cur with
      | .error _ => cur
      | .ok (updated, workDone) => if workDone then updated else cur)
    message

/-- The final message after the module pipeline and the two trims
(`strings.Trim(_, "\n")` then `strings.TrimSpace`). -/
def finalizeMessage (modules : List Module) (branch message : Str) : Str :=
  goTrimSpace (goTrimChar (runModules modules branch message) '\n')

/-- The tag block of `processCommitMessages`: latest tag lookup, version
increment, tag creation, and tag push when pushing is enabled. -/
def tagPhase (env : Env) (settings2 : Settings) (finalMsg : Str) (evs : List Event) :
    Except Unit Unit × List Event :=
  match env.latestTag with
  | .error _ => (.error (), evs)
  | .ok latest =>
    match IncrementVersion latest settings2.tag with
    | .error _ => (.error (), evs)
    | .ok newTag =>
      match env.createTag newTag finalMsg with
      | .error _ => (.error (), evs ++ [.createTag newTag finalMsg])
      | .ok _ =>
        let evs := evs ++ [.createTag newTag finalMsg]
        if settings2.push then
          match env.pushTag newTag with
          | .error _ => (.error (), evs ++ [.pushTag newTag])
          | .ok _ => (.ok (), evs ++ [.pushTag newTag])
        else (.ok (), evs)

/-- The tail of `processCommitMessages` once a commit message has been
chosen (module pipeline, trims, then — unless dry-run — commit, push and
tagging; in dry-run only the would-be final message is reported). -/
def commitPhase (env : Env) (settings2 : Settings) (modules : List Module)
    (branch commitMessage : Str) : Except Unit Unit × List Event :=
  if commitMessage.isEmpty then (.error (), [])
  else
    let finalMsg := finalizeMessage modules branch commitMessage
    if !settings2.dryRun then
      match env.createCommit finalMsg with
      | .error _ => (.error (), [.createCommit finalMsg])
      | .ok _ =>
        let evs : List Event := [.createCommit finalMsg]
        let (pushFailed, evs) :=
          if settings2.push then
            match env.pushToRemote with
            | .error _ => (true, evs ++ [Event.push])
            | .ok _ => (false, evs ++ [Event.push])
          else (false, evs)
        if pushFailed then (.error (), evs)
        else if !settings2.tag.isEmpty then tagPhase env settings2 finalMsg evs
        else (.ok (), evs)
    else (.ok (), [.dryRunReport finalMsg])

/-- Model of `processCommitMessages`: auto mode picks an arbitrary message
from the provider map (modelled as the head of the result list), interactive
mode defers to the UI which may cancel or override the dry-run, push and tag
settings. -/
def processCommitMessages (env : Env) (settings : Settings) (modules : List Module)
    (branch : Str) (messages : List Str) : Except Unit Unit × List Event :=
  if settings.auto then
    let commitMessage := messages.headD []
    if commitMessage.isEmpty then (.error (), [])
    else commitPhase env settings modules branch commitMessage
  else
    match env.uiOutcome with
    | .error _ => (.error (), [])
    | .ok .canceled => (.ok (), [])
    | .ok (.chosen message dry push tag) =>
      commitPhase env { settings with dryRun := dry, push := push, tag := tag }
        modules branch message

/-- Model of `Service.Execute`: precondition checks, unstage, staging,
diffing, branch lookup, provider fan-out, then message processing.  Empty
staging result and whitespace-only diff return success before any provider
or mutating call. -/
def Execute (env : Env) (settings : Settings) (modules : List Module) :
    Except Unit Unit × List Event :=
  if env.numProviders = 0 then (.error (), [])
  else if !env.isGitRepository then (.error (), [])
  else
    match env.repoState with
    | .error _ => (.error (), [])
    | .ok st =>
      if st ≠ RepoStateNormal then (.error (), [])
      else
        match env.hasConflicts with
        | .error _ => (.error (), [])
        | .ok true => (.error (), [])
        | .ok false =>
          match env.unstageAll with
          | .error _ => (.error (), [])
          | .ok _ =>
            match env.stageFiles with
            | .error _ => (.error (), [])
            | .ok stagedFiles =>
              if stagedFiles.isEmpty then (.ok (), [])
              else
                match env.stagedDiff with
                | .error _ => (.error (), [])
                | .ok diff =>
                  if goTrimSpace diff = [] then (.ok (), [])
                  else
                    match env.currentBranch with
                    | .error _ => (.error (), [])
                    | .ok branch =>
                      match env.generateMessages with
                      | .error _ => (.error (), [.providerCall])
                      | .ok messages =>
                        let (r, evs) :=
                          processCommitMessages env settings modules branch messages
                        (r, .providerCall :: evs)

/-! ## Theorems -/

/-- Whether an `Except` result is a success. -/
def isOkE {α : Type} (e : Except Unit α) : Bool :=
  match e with
  | .ok _ => true
  | .error _ => false

/-- C3: `GetRepoState` returns exactly one state for any combination of
marker files, chosen by the precedence rebase over merge over cherry-pick
over revert over bisect, and `normal` when no marker is present. -/
theorem C3_repo_state_precedence (m : RepoMarkers) :
    GetRepoState m = specRepoState m ∧
    GetRepoState m ∈ [RepoStateNormal, RepoStateMerging, RepoStateRebasing,
      RepoStateCherryPicking, RepoStateReverting, RepoStateBisecting] := by
  obtain ⟨a, b, c, d, e, f⟩ := m
  cases a <;> cases b <;> cases c <;> cases d <;> cases e <;> cases f <;>
    exact ⟨rfl, by decide⟩

/-- The `tryContextLevels` loop returns the first rendering in the level
list whose byte length fits the ceiling. -/
theorem tryContextLevels_eq_find (render : Nat → Str) (maxSizeBytes : Nat) (ls : List Nat) :
    tryContextLevels render maxSizeBytes ls =
      (ls.find? (fun l => (render l).length ≤ maxSizeBytes)).map render := by
  induction ls with
  | nil => rfl
  | cons l rest ih =>
    by_cases h : (render l).length ≤ maxSizeBytes
    · simp [tryContextLevels, List.find?_cons, h]
    · simp [tryContextLevels, List.find?_cons, h, ih]

/-- C2: for a non-empty staged file list, `GetStagedDiff` tries the context
widths 5, 3, 2, 1, 0 in that order and returns the first rendering whose
byte length is within the ceiling, and otherwise the 0-context rendering
truncated (possibly mid-line) at the ceiling. -/
theorem C2_staged_diff_first_fit (render : Nat → Str) (diffFiles : List Str)
    (maxSizeBytes : Nat) (h : diffFiles ≠ []) :
    GetStagedDiff render diffFiles maxSizeBytes = specStagedDiff render maxSizeBytes := by
  have hne : diffFiles.isEmpty = false := by
    cases diffFiles with
    | nil => exact absurd rfl h
    | cons a t => rfl
  unfold GetStagedDiff specStagedDiff
  rw [hne, tryContextLevels_eq_find]
  cases hf : contextLevels.find? (fun l => (render l).length ≤ maxSizeBytes) with
  | some l => simp
  | none =>
    have h0 : ¬ ((render 0).length ≤ maxSizeBytes) := by
      have := List.find?_eq_none.mp hf 0 (by simp [contextLevels])
      simpa using this
    simp [Nat.lt_of_not_le h0]

/-- C2 witness at a concrete rendering. -/
theorem C2_staged_diff_first_fit_witness :
    GetStagedDiff (fun _ => str "a") [str "f"] 5 = specStagedDiff (fun _ => str "a") 5 :=
  C2_staged_diff_first_fit (fun _ => str "a") [str "f"] 5 (by simp)

/-- Rendering used by the C4 counterexample: the 3-context rendering fits a
ceiling of 3, so the loop stops before reaching 0 context. -/
def c4RenderA : Nat → Str := fun l =>
  if l = 5 then str "aaaaaa" else if l = 3 then str "bb" else str "c"

/-- Rendering used by the C4 counterexample for the exact-truncation part:
the 3-context rendering fits a ceiling of 2 although the 0-context rendering
exceeds it, so no truncation happens and the output is shorter than the
ceiling. -/
def c4RenderB : Nat → Str := fun l =>
  if l = 3 then str "x" else if l = 0 then str "zzz" else str "aaaaaa"

/-- C4 counterexample: with a ceiling smaller than the 5-context rendering
but at least the 0-context rendering, the engine can stop at 3 context and
return something other than the 0-context output; and with a ceiling below
the 0-context rendering's length, the output length can differ from the
ceiling. -/
theorem C4_counterexample :
    ((c4RenderA 0).length ≤ 3 ∧ 3 < (c4RenderA 5).length ∧
      GetStagedDiff c4RenderA [str "f"] 3 ≠ c4RenderA 0) ∧
    (2 < (c4RenderB 0).length ∧
      (GetStagedDiff c4RenderB [str "f"] 2).length ≠ 2) := by
  decide

/-- C4 amended: when the ceiling is below the renderings at context widths
5, 3, 2 and 1, the engine selects the 0-context output whenever that output
fits, and otherwise returns exactly `ceiling` bytes of it. -/
theorem C4_diff_fitting_amended (render : Nat → Str) (diffFiles : List Str)
    (maxSizeBytes : Nat) (hne : diffFiles ≠ [])
    (h : ∀ l ∈ [5, 3, 2, 1], maxSizeBytes < (render l).length) :
    ((render 0).length ≤ maxSizeBytes →
      GetStagedDiff render diffFiles maxSizeBytes = render 0) ∧
    (maxSizeBytes < (render 0).length →
      (GetStagedDiff render diffFiles maxSizeBytes).length = maxSizeBytes) := by
  have hne' : diffFiles.isEmpty = false := by
    cases diffFiles with
    | nil => exact absurd rfl hne
    | cons a t => rfl
  have h5 : ¬ ((render 5).length ≤ maxSizeBytes) := by have := h 5 (by simp); omega
  have h3 : ¬ ((render 3).length ≤ maxSizeBytes) := by have := h 3 (by simp); omega
  have h2 : ¬ ((render 2).length ≤ maxSizeBytes) := by have := h 2 (by simp); omega
  have h1 : ¬ ((render 1).length ≤ maxSizeBytes) := by have := h 1 (by simp); omega
  constructor
  · intro h0
    simp [GetStagedDiff, hne', contextLevels, tryContextLevels, h5, h3, h2, h1, h0]
  · intro h0
    simp [GetStagedDiff, hne', contextLevels, tryContextLevels, h5, h3, h2, h1,
      Nat.not_le.mpr h0, h0]
    omega

/-- C4 amended witness at concrete renderings and ceilings. -/
theorem C4_diff_fitting_amended_witness :
    GetStagedDiff (fun l => if l = 0 then str "a" else str "xxxxx") [str "f"] 3 =
      (fun l : Nat => if l = 0 then str "a" else str "xxxxx") 0 ∧
    (GetStagedDiff (fun l => if l = 0 then str "aa" else str "xxxxx") [str "f"] 1).length = 1 :=
  ⟨(C4_diff_fitting_amended _ [str "f"] 3 (by simp) (by decide)).1 (by decide),
   (C4_diff_fitting_amended _ [str "f"] 1 (by simp) (by decide)).2 (by decide)⟩

/-- C5 counterexample: the tag `v1.2.x` is not a parseable semantic version,
yet `IncrementVersion` does not treat it as `v0.0.0`: the patch increment
yields `v1.2.1`, not `v0.0.1`, because only the non-numeric component
defaults to 0. -/
theorem C5_counterexample :
    IncrementVersion (str "v1.2.x") (str "patch") = .ok (str "v1.2.1") ∧
    str "v1.2.1" ≠ str "v0.0.1" := by
  constructor
  · rfl
  · decide

/-- C5 amended: an increment kind other than major/minor/patch
(case-insensitively) is exactly the error case; each kind increments its own
component of the lenient parse and resets the lower ones; an empty tag, or a
tag that does not split into three dot-separated components after removing a
leading `v`, starts from `v0.0.0` (a three-component tag keeps its numeric
components and zeroes only the unparseable ones); and the spec's concrete
examples hold. -/
theorem C5_increment_version_amended :
    (∀ tag kind, IncrementVersion tag kind = .error () ↔
      ¬ (goToLower kind = str "major" ∨ goToLower kind = str "minor" ∨
         goToLower kind = str "patch")) ∧
    (∀ tag, IncrementVersion tag (str "major") =
      .ok (formatSemVer ⟨wrap64 ((baseVersion tag).major + 1), 0, 0⟩)) ∧
    (∀ tag, IncrementVersion tag (str "minor") =
      .ok (formatSemVer ⟨(baseVersion tag).major,
        wrap64 ((baseVersion tag).minor + 1), 0⟩)) ∧
    (∀ tag, IncrementVersion tag (str "patch") =
      .ok (formatSemVer ⟨(baseVersion tag).major, (baseVersion tag).minor,
        wrap64 ((baseVersion tag).patch + 1)⟩)) ∧
    (∀ tag, tag = [] ∨ (goSplitChar '.' (goTrimPrefix tag (str "v"))).length ≠ 3 →
      baseVersion tag = ⟨0, 0, 0⟩) ∧
    IncrementVersion (str "v1.2.3") (str "patch") = .ok (str "v1.2.4") ∧
    IncrementVersion [] (str "major") = .ok (str "v1.0.0") ∧
    IncrementVersion (str "v1.2.3") (str "bogus") = .error () ∧
    IncrementVersion (str "v9223372036854775807.0.0") (str "major") =
      .ok (str "v-9223372036854775808.0.0") ∧
    IncrementVersion (str "v1.2.3") (str "MİNOR") = .ok (str "v1.3.0") := by
  refine ⟨?_, ?_, ?_, ?_, ?_, rfl, rfl, rfl, rfl, rfl⟩
  · intro tag kind
    simp only [IncrementVersion]
    by_cases h1 : goToLower kind = str "major"
    · rw [if_pos h1]
      simp [h1]
    · rw [if_neg h1]
      by_cases h2 : goToLower kind = str "minor"
      · rw [if_pos h2]
        simp [h1, h2]
      · rw [if_neg h2]
        by_cases h3 : goToLower kind = str "patch"
        · rw [if_pos h3]
          simp [h1, h2, h3]
        · rw [if_neg h3]
          simp [h1, h2, h3]
  · intro tag; rfl
  · intro tag; rfl
  · intro tag; rfl
  · intro tag h
    cases h with
    | inl h => simp [baseVersion, h]
    | inr h =>
      unfold baseVersion parseSemVer
      split
      · rfl
      · simp [h]

/-- C5 amended witness: a two-component tag falls back to `v0.0.0`. -/
theorem C5_increment_version_amended_witness :
    baseVersion (str "v1.2") = ⟨0, 0, 0⟩ :=
  C5_increment_version_amended.2.2.2.2.1 (str "v1.2") (.inr (by decide))

/-- Stripping a suffix that is present and appending it again is the
identity (Go `strings.TrimSuffix` followed by re-concatenation). -/
theorem goTrimSuffix_append (p suf : Str) (h : goHasSuffix p suf = true) :
    goTrimSuffix p suf ++ suf = p := by
  unfold goTrimSuffix
  rw [if_pos h]
  unfold goHasSuffix at h
  obtain ⟨t, rfl⟩ := (List.isSuffixOf_iff_suffix.mp h)
  have hlen : (t ++ suf).length - suf.length = t.length := by
    simp
  rw [hlen, List.take_left]

/-- The directory-pattern probe of `shouldExcludeFile` is subsumed by the
plain substring probe, so a global pattern hits exactly under the
specification's four-way match. -/
theorem globalPatternHit_eq_spec (file : Str) :
    globalPatternHit file = specPatternMatch file := by
  funext pattern
  unfold globalPatternHit specPatternMatch
  by_cases h : goHasSuffix pattern (str "/") = true
  · rw [goTrimSuffix_append pattern (str "/") h, h]
    cases hc : goContains file pattern <;> simp [hc]
  · simp only [Bool.not_eq_true] at h
    rw [h]
    simp

/-- The local pattern probe is literally the specification's four-way
match. -/
theorem localPatternHit_eq_spec (file : Str) :
    localPatternHit file = specPatternMatch file := rfl

/-- C1: the staging predicate of the filtered strategy — built from
`shouldExcludeFile` and `shouldIncludeFile` — agrees with the
specification: a file is kept exactly when no global-ignore pattern matches
it, no local exclude pattern matches it, and the include list is empty or
some include pattern matches it; and both helper functions agree with the
four-way substring-path / substring-basename / glob-path / glob-basename
match relation. -/
theorem C1_staging_filter_spec (file : Str)
    (excludePatterns includePatterns globalPatterns : List Str) :
    stageFilteredKeep file excludePatterns includePatterns globalPatterns =
      specStageKeep file excludePatterns includePatterns globalPatterns ∧
    shouldIncludeFile file includePatterns = includePatterns.any (specPatternMatch file) ∧
    shouldExcludeFile file excludePatterns globalPatterns =
      (globalPatterns.any (specPatternMatch file) ||
       excludePatterns.any (specPatternMatch file)) := by
  have hinc : shouldIncludeFile file includePatterns =
      includePatterns.any (specPatternMatch file) := by
    unfold shouldIncludeFile
    cases includePatterns with
    | nil => rfl
    | cons p t => simp [localPatternHit_eq_spec]
  have hexc : shouldExcludeFile file excludePatterns globalPatterns =
      (globalPatterns.any (specPatternMatch file) ||
       excludePatterns.any (specPatternMatch file)) := by
    unfold shouldExcludeFile
    rw [globalPatternHit_eq_spec]
    cases hg : globalPatterns.any (specPatternMatch file)
    · simp only [hg, Bool.false_eq_true, if_false]
      cases excludePatterns with
      | nil => simp
      | cons p t => simp [localPatternHit_eq_spec]
    · simp [hg]
  refine ⟨?_, hinc, hexc⟩
  unfold stageFilteredKeep specStageKeep
  rw [hexc, hinc]
  cases globalPatterns.any (specPatternMatch file) <;>
    cases excludePatterns.any (specPatternMatch file) <;>
    cases hi : includePatterns.isEmpty <;>
    cases hia : includePatterns.any (specPatternMatch file) <;>
    simp_all

/-- C7 counterexample: for the simple glob `*.txt` and a modified file
`dir/a.txt`, the glob fast path resolves no file (the full path does not
glob-match), while the filtered strategy stages it (its basename
glob-matches), so the two strategies disagree. -/
theorem C7_counterexample :
    isSimpleGlobPattern (str "*.txt") = true ∧
    stageWithGlobList [⟨str "dir/a.txt", 'M'⟩] (str "*.txt") = [] ∧
    stageFilteredList [⟨str "dir/a.txt", 'M'⟩] [] [str "*.txt"] [] = [str "dir/a.txt"] := by
  decide

/-- C7 amended: under the fast-path conditions (no excludes, no global
patterns, a single simple-glob include) `StageFiles` dispatches to the glob
strategy, and every path the glob strategy resolves and stages would also be
staged by the filtered strategy — the glob path stages a subset, because it
only admits full-path glob matches while the filter also admits substring
and basename matches. -/
theorem C7_glob_fast_path_amended (status : List StatusEntry) (pattern : Str)
    (hp : isSimpleGlobPattern pattern = true) :
    StageFilesList status [] [pattern] [] = stageWithGlobList status pattern ∧
    ∀ f ∈ stageWithGlobList status pattern, f ∈ stageFilteredList status [] [pattern] [] := by
  constructor
  · simp [StageFilesList, hp]
  · intro f hf
    unfold stageWithGlobList at hf
    unfold stageFilteredList
    simp only [List.mem_map, List.mem_filter] at hf ⊢
    obtain ⟨e, ⟨he, hcond⟩, hfe⟩ := hf
    refine ⟨e, ⟨he, ?_⟩, hfe⟩
    rw [Bool.and_eq_true] at hcond
    rw [Bool.and_eq_true]
    refine ⟨hcond.1, ?_⟩
    have hm : goMatchB pattern e.file = true := hcond.2
    simp [stageFilteredKeep, shouldExcludeFile, shouldIncludeFile, localPatternHit, hm]

/-- C7 amended witness at a concrete status and pattern. -/
theorem C7_glob_fast_path_amended_witness :
    StageFilesList [⟨str "a.txt", 'M'⟩] [] [str "*.txt"] [] =
      stageWithGlobList [⟨str "a.txt", 'M'⟩] (str "*.txt") ∧
    str "a.txt" ∈ stageFilteredList [⟨str "a.txt", 'M'⟩] [] [str "*.txt"] [] :=
  ⟨(C7_glob_fast_path_amended [⟨str "a.txt", 'M'⟩] (str "*.txt") (by decide)).1,
   (C7_glob_fast_path_amended [⟨str "a.txt", 'M'⟩] (str "*.txt") (by decide)).2
     (str "a.txt") (by decide)⟩

/-- C8: once the preconditions pass, an empty staging result — or a staged
diff that trims to nothing — makes `Execute` return success while the trace
of provider and mutating git calls stays empty. -/
theorem C8_short_circuit_success (env : Env) (settings : Settings) (modules : List Module)
    (hprov : env.numProviders ≠ 0) (hrepo : env.isGitRepository = true)
    (hstate : env.repoState = .ok RepoStateNormal) (hconf : env.hasConflicts = .ok false)
    (hunstage : env.unstageAll = .ok ()) :
    (env.stageFiles = .ok [] → Execute env settings modules = (.ok (), [])) ∧
    (∀ staged diff, env.stageFiles = .ok staged → env.stagedDiff = .ok diff →
      goTrimSpace diff = [] → Execute env settings modules = (.ok (), [])) := by
  constructor
  · intro hstage
    simp [Execute, hprov, hrepo, hstate, hconf, hunstage, hstage]
  · intro staged diff hstage hdiff htrim
    by_cases hs : staged.isEmpty
    · simp [Execute, hprov, hrepo, hstate, hconf, hunstage, hstage, hs]
    · simp [Execute, hprov, hrepo, hstate, hconf, hunstage, hstage, hs, hdiff, htrim]

/-- Environment for the C8 witness, the staging call returning no files. -/
def c8EnvA : Env where
  numProviders := 1
  isGitRepository := true
  repoState := .ok RepoStateNormal
  hasConflicts := .ok false
  unstageAll := .ok ()
  stageFiles := .ok []
  stagedDiff := .ok []
  currentBranch := .ok []
  generateMessages := .ok []
  uiOutcome := .ok .canceled
  createCommit := fun _ => .ok ()
  pushToRemote := .ok []
  latestTag := .ok []
  createTag := fun _ _ => .ok ()
  pushTag := fun _ => .ok ()

/-- Environment for the C8 witness, the staged diff being whitespace. -/
def c8EnvB : Env :=
  { c8EnvA with stageFiles := .ok [str "f"], stagedDiff := .ok (str "  \n ") }

/-- C8 witness: both short-circuit cases at concrete environments. -/
theorem C8_short_circuit_success_witness :
    Execute c8EnvA ⟨true, false, false, []⟩ [] = (.ok (), []) ∧
    Execute c8EnvB ⟨true, false, false, []⟩ [] = (.ok (), []) :=
  ⟨(C8_short_circuit_success c8EnvA ⟨true, false, false, []⟩ []
      (by decide) rfl rfl rfl rfl).1 rfl,
   (C8_short_circuit_success c8EnvB ⟨true, false, false, []⟩ []
      (by decide) rfl rfl rfl rfl).2 [str "f"] (str "  \n ") rfl rfl (by decide)⟩

/-- The tag block only ever appends to the event trace it is given. -/
theorem tagPhase_trace (env : Env) (settings2 : Settings) (finalMsg : Str) (evs : List Event) :
    ∃ t, (tagPhase env settings2 finalMsg evs).2 = evs ++ t := by
  unfold tagPhase
  cases env.latestTag with
  | error e => exact ⟨[], by simp⟩
  | ok latest =>
    cases hIV : IncrementVersion latest settings2.tag with
    | error e => exact ⟨[], by simp [hIV]⟩
    | ok newTag =>
      cases hct : env.createTag newTag finalMsg with
      | error e => exact ⟨[.createTag newTag finalMsg], by simp [hIV, hct]⟩
      | ok u =>
        by_cases hp : settings2.push
        · cases hpt : env.pushTag newTag with
          | error e =>
            exact ⟨[.createTag newTag finalMsg, .pushTag newTag],
              by simp [hIV, hct, hp, hpt]⟩
          | ok u2 =>
            exact ⟨[.createTag newTag finalMsg, .pushTag newTag],
              by simp [hIV, hct, hp, hpt]⟩
        · exact ⟨[.createTag newTag finalMsg], by simp [hIV, hct, hp]⟩

/-- C9: with dry-run enabled the chosen message goes through the module
pipeline and trims exactly as it would otherwise, no mutating call is
recorded, the result is success, and the would-be final message is
reported; without dry-run the very first recorded call is the commit of
that same final message. -/
theorem C9_dry_run_no_mutations (env : Env) (settings : Settings) (modules : List Module)
    (branch msg : Str) (hdry : settings.dryRun = true) (hmsg : msg ≠ []) :
    commitPhase env settings modules branch msg =
      (.ok (), [.dryRunReport (finalizeMessage modules branch msg)]) ∧
    (commitPhase env { settings with dryRun := false } modules branch msg).2.head? =
      some (.createCommit (finalizeMessage modules branch msg)) := by
  have hne : msg.isEmpty = false := by
    cases msg with
    | nil => exact absurd rfl hmsg
    | cons a t => rfl
  constructor
  · simp [commitPhase, hne, hdry]
  · simp only [commitPhase, hne, Bool.not_false, if_true, Bool.false_eq_true, if_false,
      Bool.not_eq_true']
    cases hcc : env.createCommit (finalizeMessage modules branch msg) with
    | error e => simp [hcc]
    | ok u =>
      simp only [hcc]
      by_cases hp : settings.push = true
      · cases hpr : env.pushToRemote with
        | error e => simp [hp, hpr]
        | ok u2 =>
          by_cases ht : settings.tag.isEmpty
          · simp [hp, hpr, ht]
          · obtain ⟨t, htr⟩ := tagPhase_trace env { settings with dryRun := false }
              (finalizeMessage modules branch msg)
              [.createCommit (finalizeMessage modules branch msg), .push]
            simp only [hp] at htr
            simp [hp, hpr, ht, htr]
      · by_cases ht : settings.tag.isEmpty
        · simp [hp, ht]
        · obtain ⟨t, htr⟩ := tagPhase_trace env { settings with dryRun := false }
            (finalizeMessage modules branch msg)
            [.createCommit (finalizeMessage modules branch msg)]
          rw [Bool.not_eq_true] at hp
          simp only [hp] at htr
          simp [hp, ht, htr]

/-- Environment for the C9 witness. -/
def c9Env : Env := { c8EnvA with stageFiles := .ok [] }

/-- C9 witness at a concrete environment, settings and message. -/
theorem C9_dry_run_no_mutations_witness :
    commitPhase c9Env ⟨true, true, true, str "patch"⟩ [] (str "b") (str "m") =
      (.ok (), [.dryRunReport (finalizeMessage [] (str "b") (str "m"))]) ∧
    (commitPhase c9Env ⟨true, false, true, str "patch"⟩ [] (str "b") (str "m")).2.head? =
      some (.createCommit (finalizeMessage [] (str "b") (str "m"))) :=
  C9_dry_run_no_mutations c9Env ⟨true, true, true, str "patch"⟩ [] (str "b") (str "m")
    rfl (by decide)

/-- C10: whenever an issue ID is detected and the position is not `none`,
`TransformCommitMessage` reports `changed = true` even if the identifier
already occurs in the message, in which case the returned message is
identical to the input. -/
theorem C10_changed_true_when_duplicate (position : JiraTaskPosition) (style : JiraTaskStyle)
    (branch msg : Str) (hpos : position ≠ .posNone) (hdet : detectJiraID branch ≠ [])
    (hdup : goContains msg (detectJiraID branch) = true) :
    TransformCommitMessage position style branch msg = (msg, true) := by
  have hne : (detectJiraID branch).isEmpty = false := by
    cases h : detectJiraID branch with
    | nil => exact absurd h hdet
    | cons a t => rfl
  simp [TransformCommitMessage, addJiraID, hpos, hne, hdup]

/-- C10 witness: branch `PROJ-1` with the identifier already present in the
message. -/
theorem C10_changed_true_when_duplicate_witness :
    TransformCommitMessage .posPrefix .stylePlain (str "PROJ-1") (str "do PROJ-1 fix") =
      (str "do PROJ-1 fix", true) :=
  C10_changed_true_when_duplicate .posPrefix .stylePlain (str "PROJ-1") (str "do PROJ-1 fix")
    (by decide) (by decide) (by decide)

/-! ### Auxiliary lemmas for the issue-ID module -/

/-- A list is a `isPrefixOf`-prefix of itself extended on the right. -/
theorem isPrefixOf_append_self (l t : Str) : l.isPrefixOf (l ++ t) = true := by
  induction l with
  | nil => simp [List.isPrefixOf]
  | cons c cs ih => simp [List.isPrefixOf, ih]

/-- Substring-search correctness in one direction: an explicitly decomposed
occurrence is found by `goContains`. -/
theorem goContains_of_parts (pre sub post : Str) :
    goContains (pre ++ (sub ++ post)) sub = true := by
  induction pre with
  | nil =>
    rw [List.nil_append, goContains.eq_def, isPrefixOf_append_self]
    simp
  | cons c cs ih =>
    rw [List.cons_append, goContains.eq_def]
    by_cases h : sub.isPrefixOf (c :: (cs ++ (sub ++ post))) = true
    · simp [h]
    · simp only [Bool.not_eq_true] at h
      simp [h, ih]

/-- Characters that can occur in a detected issue ID. -/
def idChar (c : Char) : Bool := isUpperGo c || c = '-' || isDigitGo c

/-- An issue-ID character is not a newline. -/
theorem idChar_ne_newline {c : Char} (h : idChar c = true) : c ≠ '\n' := by
  intro heq
  subst heq
  exact absurd h (by decide)

/-- The capture of the `[A-Z]+-\d+` matcher consists of ID characters. -/
theorem matchIdAt_chars {s id r : Str} (h : matchIdAt s = some (id, r)) :
    ∀ c ∈ id, idChar c = true := by
  simp only [matchIdAt] at h
  split at h
  · exact absurd h (by simp)
  · split at h
    · rename_i r2 heq
      split at h
      · exact absurd h (by simp)
      · simp only [Option.some.injEq, Prod.mk.injEq] at h
        obtain ⟨h1, _⟩ := h
        subst h1
        intro c hc
        rcases List.mem_append.mp hc with hcu | hcd
        · have hu := List.mem_takeWhile_imp hcu
          simp [idChar, hu]
        · rcases List.mem_cons.mp hcd with rfl | hcd2
          · simp [idChar]
          · have hd := List.mem_takeWhile_imp hcd2
            simp [idChar, hd]
    · exact absurd h (by simp)

/-- The capture of a branch-convention pattern consists of ID characters. -/
theorem matchBranchConvention_chars {pfx b id : Str}
    (h : matchBranchConvention pfx b = some id) : ∀ c ∈ id, idChar c = true := by
  unfold matchBranchConvention at h
  split at h
  · split at h
    · rename_i id0 rest heq
      split at h
      · simp only [Option.some.injEq] at h
        subst h
        exact matchIdAt_chars heq
      · split at h
        · simp only [Option.some.injEq] at h
          subst h
          exact matchIdAt_chars heq
        · exact absurd h (by simp)
    · exact absurd h (by simp)
  · exact absurd h (by simp)

/-- The capture of the `/ID(-|$)` scan consists of ID characters. -/
theorem findSlashId_chars : ∀ (b id : Str), findSlashId b = some id →
    ∀ c ∈ id, idChar c = true := by
  intro b
  induction b with
  | nil => intro id h; exact absurd h (by simp [findSlashId])
  | cons a t ih =>
    intro id h
    rw [findSlashId] at h
    split at h
    · split at h
      · rename_i id0 rest heq
        split at h
        · simp only [Option.some.injEq] at h
          subst h
          exact matchIdAt_chars heq
        · exact ih id h
      · exact ih id h
    · exact ih id h

/-- Every character of a detected issue ID is an ID character. -/
theorem detectJiraID_chars (b : Str) : ∀ c ∈ detectJiraID b, idChar c = true := by
  unfold detectJiraID
  split
  · rename_i pr heq
    exact matchIdAt_chars heq
  · split
    · rename_i heq
      exact matchBranchConvention_chars heq
    · split
      · rename_i heq
        exact matchBranchConvention_chars heq
      · split
        · rename_i heq
          exact matchBranchConvention_chars heq
        · split
          · rename_i heq
            exact matchBranchConvention_chars heq
          · split
            · rename_i heq
              exact findSlashId_chars b _ heq
            · simp

/-- A detected issue ID never contains a newline. -/
theorem detectJiraID_noNL (b : Str) : ∀ c ∈ detectJiraID b, c ≠ '\n' :=
  fun c hc => idChar_ne_newline (detectJiraID_chars b c hc)

/-- Newline-freedom is preserved by concatenation. -/
theorem append_noNL {a b : Str} (ha : ∀ c ∈ a, c ≠ '\n') (hb : ∀ c ∈ b, c ≠ '\n') :
    ∀ c ∈ a ++ b, c ≠ '\n' := by
  intro c hc
  rcases List.mem_append.mp hc with h | h
  · exact ha c h
  · exact hb c h

/-- Newline-freedom is preserved by prepending a non-newline character. -/
theorem cons_noNL {a : Str} {x : Char} (hx : x ≠ '\n') (ha : ∀ c ∈ a, c ≠ '\n') :
    ∀ c ∈ x :: a, c ≠ '\n' := by
  intro c hc
  rcases List.mem_cons.mp hc with rfl | h
  · exact hx
  · exact ha c h

/-- The formatted issue ID contains no newline when the raw ID has none. -/
theorem formatJiraID_noNL {style : JiraTaskStyle} {position : JiraTaskPosition} {id : Str}
    (h : ∀ c ∈ id, c ≠ '\n') : ∀ c ∈ formatJiraID style position id, c ≠ '\n' := by
  cases style with
  | styleBrackets =>
    exact @cons_noNL (id ++ [']']) '[' (by decide) (@append_noNL id [']'] h (by decide))
  | styleParens =>
    exact @cons_noNL (id ++ [')']) '(' (by decide) (@append_noNL id [')'] h (by decide))
  | stylePlainColon =>
    by_cases hp : position = JiraTaskPosition.posPrefix
    · simpa [formatJiraID, hp] using @append_noNL id [':'] h (by decide)
    · simpa [formatJiraID, hp] using h
  | stylePlain => simpa [formatJiraID] using h

/-- The first line of a message is newline-free. -/
theorem firstLineOf_noNL (s : Str) : ∀ c ∈ firstLineOf s, c ≠ '\n' := by
  intro c hc
  have := List.mem_takeWhile_imp hc
  simpa using this

/-- Both pieces of the conventional-commit split are newline-free whenever
the split line is. -/
theorem splitConventional_noNL {fl : Str} (h : ∀ c ∈ fl, c ≠ '\n') :
    (∀ c ∈ (splitConventional fl).1, c ≠ '\n') ∧
    (∀ c ∈ (splitConventional fl).2, c ≠ '\n') := by
  unfold splitConventional
  split
  · split
    · dsimp only
      split
      · constructor
        · intro c hc
          exact h c (List.take_subset _ _ hc)
        · intro c hc
          exact h c (List.drop_subset _ _ hc)
      · exact ⟨by simp, h⟩
    · exact ⟨by simp, h⟩
  · exact ⟨by simp, h⟩

/-- Appending after a newline-free first segment: the segment before the
first newline is recovered exactly. -/
theorem firstLineOf_append {a r : Str} (h : ∀ c ∈ a, c ≠ '\n') :
    firstLineOf (a ++ '\n' :: r) = a := by
  unfold firstLineOf
  rw [List.takeWhile_append_of_pos (by intro x hx; simpa using h x hx)]
  simp

/-- A newline-free list is its own first line. -/
theorem firstLineOf_self {a : Str} (h : ∀ c ∈ a, c ≠ '\n') : firstLineOf a = a :=
  List.takeWhile_eq_self_iff.mpr (by intro x hx; simpa using h x hx)

/-- The remainder after the first newline of `a ++ '\n' :: r` is `r` when
`a` is newline-free. -/
theorem restAfterNL_append {a r : Str} (h : ∀ c ∈ a, c ≠ '\n') :
    restAfterNL (a ++ '\n' :: r) = some r := by
  unfold restAfterNL
  rw [List.dropWhile_append_of_pos (by intro x hx; simpa using h x hx)]
  simp

/-- A newline-free list has no remainder after a first newline. -/
theorem restAfterNL_none {a : Str} (h : ∀ c ∈ a, c ≠ '\n') : restAfterNL a = none := by
  unfold restAfterNL
  rw [List.dropWhile_eq_nil_iff.mpr (by intro x hx; simpa using h x hx)]

/-- A successful `goIndex` search means the needle is a prefix of the
haystack dropped at the reported position. -/
theorem goIndex_isPrefixOf {s sub : Str} {i : Nat} (h : goIndex s sub = some i) :
    sub.isPrefixOf (s.drop i) = true := by
  induction s generalizing i with
  | nil =>
    rw [goIndex] at h
    split at h
    · simp only [Option.some.injEq] at h
      subst h
      assumption
    · exact absurd h (by simp)
  | cons c t ih =>
    rw [goIndex] at h
    split at h
    · simp only [Option.some.injEq] at h
      subst h
      assumption
    · cases hj : goIndex t sub with
      | none => rw [hj] at h; exact absurd h (by simp)
      | some j =>
        rw [hj] at h
        simp at h
        subst h
        simpa using ih hj

/-- A `isPrefixOf`-prefix can be split off the front of the list. -/
theorem eq_append_of_isPrefixOf {sub s : Str} (h : sub.isPrefixOf s = true) :
    s = sub ++ s.drop sub.length := by
  induction sub generalizing s with
  | nil => simp
  | cons c cs ih =>
    cases s with
    | nil => simp [List.isPrefixOf] at h
    | cons b t =>
      simp only [List.isPrefixOf, Bool.and_eq_true, beq_iff_eq] at h
      obtain ⟨rfl, h2⟩ := h
      simpa using ih h2

/-- When the conventional-commit split fires, the first line is exactly the
prefix, the literal `": "`, and the remainder — splitting loses nothing. -/
theorem splitConventional_decomp (fl : Str)
    (h : (splitConventional fl).1.isEmpty = false) :
    (splitConventional fl).1 ++ str ": " ++ (splitConventional fl).2 = fl := by
  unfold splitConventional at h ⊢
  split at h
  · rename_i idx heq
    dsimp only at h ⊢
    split at h
    · split at h
      · rename_i hrange hconv
        simp only [hrange, if_true, hconv]
        have hpre := goIndex_isPrefixOf heq
        have hdec := eq_append_of_isPrefixOf hpre
        rw [List.append_assoc]
        conv_rhs => rw [← List.take_append_drop idx fl]
        congr 1
        rw [hdec, List.drop_drop]
        norm_num [str]
      · simp at h
    · simp at h
  · simp at h

/-- The injecting branch of `addJiraID`: with a detected, newline-free,
not-yet-present ID and a real position, the text after the first newline is
untouched and the first line of the result is exactly the original first
line with the style-formatted ID placed at the configured position (before
the line, after the line, or between a conventional-commit prefix and the
rest of the line). -/
theorem addJiraID_inject (position : JiraTaskPosition) (style : JiraTaskStyle)
    (msg id : Str) (hposn : position ≠ .posNone) (hne : id.isEmpty = false)
    (hdup : goContains msg id = false) (hid : ∀ c ∈ id, c ≠ '\n') :
    restAfterNL (addJiraID position style msg id) = restAfterNL msg ∧
    firstLineOf (addJiraID position style msg id) =
      (match position with
       | .posNone => firstLineOf msg
       | .posPrefix => formatJiraID style position id ++ ' ' :: firstLineOf msg
       | .posInfix =>
         if (splitConventional (firstLineOf msg)).1.isEmpty then
           formatJiraID style position id ++ ' ' :: firstLineOf msg
         else
           (splitConventional (firstLineOf msg)).1 ++ str ": " ++
             formatJiraID style position id ++ ' ' ::
             (splitConventional (firstLineOf msg)).2
       | .posSuffix => firstLineOf msg ++ ' ' :: formatJiraID style position id) := by
  have hfid : ∀ c ∈ formatJiraID style position id, c ≠ '\n' := formatJiraID_noNL hid
  have hfl : ∀ c ∈ firstLineOf msg, c ≠ '\n' := firstLineOf_noNL msg
  have hsc := splitConventional_noNL hfl
  unfold addJiraID
  simp only [hne, Bool.false_eq_true, if_false, hdup]
  rw [if_neg hposn]
  cases position with
  | posNone => exact absurd rfl hposn
  | posPrefix =>
    have hNF : ∀ c ∈ formatJiraID style .posPrefix id ++ ' ' :: firstLineOf msg, c ≠ '\n' :=
      append_noNL hfid (cons_noNL (by decide) hfl)
    cases hrest : restAfterNL msg with
    | none => exact ⟨restAfterNL_none hNF, firstLineOf_self hNF⟩
    | some rest => exact ⟨restAfterNL_append hNF, firstLineOf_append hNF⟩
  | posInfix =>
    by_cases hpm : (splitConventional (firstLineOf msg)).1.isEmpty = true
    · simp only [hpm, Bool.not_true, Bool.false_eq_true, if_false, eq_self_iff_true,
        if_true]
      have hNF : ∀ c ∈ formatJiraID style .posInfix id ++ ' ' :: firstLineOf msg, c ≠ '\n' :=
        append_noNL hfid (cons_noNL (by decide) hfl)
      cases hrest : restAfterNL msg with
      | none => exact ⟨restAfterNL_none hNF, firstLineOf_self hNF⟩
      | some rest => exact ⟨restAfterNL_append hNF, firstLineOf_append hNF⟩
    · rw [Bool.not_eq_true] at hpm
      simp only [hpm, Bool.not_false, if_true, Bool.false_eq_true, if_false]
      have hNF : ∀ c ∈ (splitConventional (firstLineOf msg)).1 ++ str ": " ++
          formatJiraID style .posInfix id ++ ' ' :: (splitConventional (firstLineOf msg)).2,
          c ≠ '\n' := by
        refine append_noNL (append_noNL (append_noNL hsc.1 ?_) hfid)
          (cons_noNL (by decide) hsc.2)
        decide
      cases hrest : restAfterNL msg with
      | none => exact ⟨restAfterNL_none hNF, firstLineOf_self hNF⟩
      | some rest => exact ⟨restAfterNL_append hNF, firstLineOf_append hNF⟩
  | posSuffix =>
    have hNF : ∀ c ∈ firstLineOf msg ++ ' ' :: formatJiraID style .posSuffix id, c ≠ '\n' :=
      append_noNL hfl (cons_noNL (by decide) hfid)
    cases hrest : restAfterNL msg with
    | none => exact ⟨restAfterNL_none hNF, firstLineOf_self hNF⟩
    | some rest => exact ⟨restAfterNL_append hNF, firstLineOf_append hNF⟩

/-- C6: the issue-ID module extracts `PROJ-456` from
`feature/PROJ-456-add-login` and nothing from `master`; when an ID is
detected and injection is enabled, injection is skipped (message returned
verbatim) if the ID already occurs anywhere in the message, everything after
the first line is always left untouched, and otherwise the first line of the
result is exactly the original first line with the ID, formatted in the
configured literal style, placed at the configured position: in front for
prefix, at the end for suffix, and for infix either in front or — when the
line has a conventional-commit prefix — between that prefix and the rest of
the line (the split losing nothing of the line). -/
theorem C6_issue_id_module :
    (detectJiraID (str "feature/PROJ-456-add-login") = str "PROJ-456" ∧
     detectJiraID (str "master") = []) ∧
    (∀ position style branch msg, position ≠ JiraTaskPosition.posNone →
      detectJiraID branch ≠ [] → goContains msg (detectJiraID branch) = true →
      (TransformCommitMessage position style branch msg).1 = msg) ∧
    (∀ position style branch msg, position ≠ JiraTaskPosition.posNone →
      detectJiraID branch ≠ [] →
      restAfterNL ((TransformCommitMessage position style branch msg).1) =
        restAfterNL msg) ∧
    (∀ position style branch msg, position ≠ JiraTaskPosition.posNone →
      detectJiraID branch ≠ [] → goContains msg (detectJiraID branch) = false →
      firstLineOf ((TransformCommitMessage position style branch msg).1) =
        (match position with
         | .posNone => firstLineOf msg
         | .posPrefix =>
           formatJiraID style position (detectJiraID branch) ++ ' ' :: firstLineOf msg
         | .posInfix =>
           if (splitConventional (firstLineOf msg)).1.isEmpty then
             formatJiraID style position (detectJiraID branch) ++ ' ' :: firstLineOf msg
           else
             (splitConventional (firstLineOf msg)).1 ++ str ": " ++
               formatJiraID style position (detectJiraID branch) ++ ' ' ::
               (splitConventional (firstLineOf msg)).2
         | .posSuffix =>
           firstLineOf msg ++ ' ' :: formatJiraID style position (detectJiraID branch))) ∧
    (∀ fl, (splitConventional fl).1.isEmpty = false →
      (splitConventional fl).1 ++ str ": " ++ (splitConventional fl).2 = fl) := by
  refine ⟨⟨by decide, by decide⟩, ?_, ?_, ?_, splitConventional_decomp⟩
  · intro position style branch msg hpos hdet hdup
    have hne : (detectJiraID branch).isEmpty = false := by
      cases h : detectJiraID branch with
      | nil => exact absurd h hdet
      | cons a t => rfl
    simp [TransformCommitMessage, addJiraID, hpos, hne, hdup]
  · intro position style branch msg hpos hdet
    have hne : (detectJiraID branch).isEmpty = false := by
      cases h : detectJiraID branch with
      | nil => exact absurd h hdet
      | cons a t => rfl
    by_cases hdup : goContains msg (detectJiraID branch) = true
    · simp [TransformCommitMessage, addJiraID, hpos, hne, hdup]
    · rw [Bool.not_eq_true] at hdup
      have htr : (TransformCommitMessage position style branch msg).1 =
          addJiraID position style msg (detectJiraID branch) := by
        simp [TransformCommitMessage, hpos, hne]
      rw [htr]
      exact (addJiraID_inject position style msg (detectJiraID branch) hpos hne hdup
        (detectJiraID_noNL branch)).1
  · intro position style branch msg hpos hdet hdup
    have hne : (detectJiraID branch).isEmpty = false := by
      cases h : detectJiraID branch with
      | nil => exact absurd h hdet
      | cons a t => rfl
    have htr : (TransformCommitMessage position style branch msg).1 =
        addJiraID position style msg (detectJiraID branch) := by
      simp [TransformCommitMessage, hpos, hne]
    rw [htr]
    have hinj := (addJiraID_inject position style msg (detectJiraID branch) hpos hne hdup
      (detectJiraID_noNL branch)).2
    cases position with
    | posNone => exact absurd rfl hpos
    | posPrefix => exact hinj
    | posInfix => exact hinj
    | posSuffix => exact hinj

/-- C6 witness: the skip, line-preservation, exact-injection and
conventional-split statements at concrete branches and messages. -/
theorem C6_issue_id_module_witness :
    (TransformCommitMessage .posPrefix .styleBrackets (str "feature/PROJ-456-add-login")
        (str "x PROJ-456 y")).1 = str "x PROJ-456 y" ∧
    restAfterNL ((TransformCommitMessage .posSuffix .styleParens
        (str "feature/PROJ-456-add-login") (str "hello\nworld")).1) =
      restAfterNL (str "hello\nworld") ∧
    firstLineOf ((TransformCommitMessage .posPrefix .styleBrackets
        (str "feature/PROJ-456-add-login") (str "hello\nworld")).1) =
      formatJiraID .styleBrackets .posPrefix (detectJiraID (str "feature/PROJ-456-add-login")) ++
        ' ' :: firstLineOf (str "hello\nworld") ∧
    (splitConventional (str "feat: add stuff")).1 ++ str ": " ++
        (splitConventional (str "feat: add stuff")).2 = str "feat: add stuff" :=
  ⟨C6_issue_id_module.2.1 _ _ _ _ (by decide) (by decide) (by decide),
   C6_issue_id_module.2.2.1 _ _ _ _ (by decide) (by decide),
   C6_issue_id_module.2.2.2.1 _ _ _ _ (by decide) (by decide) (by decide),
   C6_issue_id_module.2.2.2.2 (str "feat: add stuff") (by decide)⟩

end Commit
